import Mathlib

/-!
Verification of the concurrent crawl-parse-aggregate pipeline in `areq.py`.

The development shallowly embeds the program's components:

* `Areq.urljoin`, `Areq.urlsplitM`, `Areq.urlparseM` — a model of CPython's
  `urllib.parse.urljoin` / `urlsplit` / `urlparse` (the library functions the
  Link Extractor calls), with `Option` for `ValueError`;
* `Areq.findHrefs` — the scan performed by `re.findall` with the pattern
  `href="(.*?)"` (non-greedy, `.` does not match a newline);
* `Areq.extractLinks` / `Areq.parse` — the Page Processor (`parse`);
* `Areq.fetch_html` — the status classification performed by
  `session.request` + `resp.raise_for_status()` (aiohttp raises
  `ClientResponseError` exactly when `status >= 400`);
* `Areq.write_one`, `Areq.bulk_crawl_and_write` — the Aggregating Writer and
  the Crawl Coordinator, with uncaught sink exceptions surfaced as values;
* `Areq.stepWrite` / `Areq.runSched` — a small interleaving semantics for the
  concurrent writers: each `await f.write(line)` is one atomic step and the
  scheduler may switch tasks between steps, since `write_one` takes no lock.
-/

namespace Areq

/-! ## Python string helpers (on `List Char`) -/

/-- First index of `c` in `s` (Python `str.find`, `-1` becomes `none`). -/
def findChar (c : Char) : List Char → Option Nat
  | [] => none
  | a :: rest => if a = c then some 0 else (findChar c rest).map (· + 1)

/-- First index of `c` in `s` at position `≥ start` (Python `str.find(c, start)`). -/
def findCharFrom (c : Char) (s : List Char) (start : Nat) : Option Nat :=
  (findChar c (s.drop start)).map (· + start)

/-- Last index of `c` in `s` (Python `str.rfind`). -/
def rfindChar (c : Char) : List Char → Option Nat
  | [] => none
  | a :: rest =>
      match rfindChar c rest with
      | some i => some (i + 1)
      | none => if a = c then some 0 else none

/-- Python `str.split(sep)` for a one-character separator: keeps empty pieces. -/
def splitChar (c : Char) : List Char → List (List Char)
  | [] => [[]]
  | a :: rest =>
      match splitChar c rest with
      | [] => [[]]
      | piece :: pieces =>
          if a = c then [] :: piece :: pieces else (a :: piece) :: pieces

/-- Python `str.partition(c)`: text before the first `c`, whether `c` occurs,
text after it. -/
def partitionChar (c : Char) : List Char → List Char × Bool × List Char
  | [] => ([], false, [])
  | a :: rest =>
      if a = c then ([], true, rest)
      else
        match partitionChar c rest with
        | (pre, found, post) => (a :: pre, found, post)

/-- Python `str.split(sep, 1)`: split at the first occurrence only. -/
def splitOnce (c : Char) (s : List Char) : List Char × List Char :=
  match partitionChar c s with
  | (pre, _, post) => (pre, post)

/-- Membership of `_WHATWG_C0_CONTROL_OR_SPACE`: code points `0x00`–`0x20`. -/
def isC0OrSpace (c : Char) : Bool := c.toNat ≤ 32

/-- Python `str.lstrip(_WHATWG_C0_CONTROL_OR_SPACE)`. -/
def lstripC0 (s : List Char) : List Char := s.dropWhile isC0OrSpace

/-- Python `str.strip(_WHATWG_C0_CONTROL_OR_SPACE)`. -/
def stripC0 (s : List Char) : List Char :=
  ((s.dropWhile isC0OrSpace).reverse.dropWhile isC0OrSpace).reverse

/-- Removal of `_UNSAFE_URL_BYTES_TO_REMOVE` (`\t`, `\r`, `\n`). -/
def removeUnsafeBytes (s : List Char) : List Char :=
  s.filter (fun c => ¬ (c = '\t' ∨ c = '\r' ∨ c = '\n'))

/-- Membership of `urllib.parse.scheme_chars`. -/
def isSchemeChar (c : Char) : Bool := c.isAlpha || c.isDigit || c = '+' || c = '-' || c = '.'

/-- ASCII hexadecimal digit (`ipaddress._IPAddressBase._HEX_DIGITS`). -/
def isHexChar (c : Char) : Bool :=
  c.isDigit || ('a' ≤ c && c ≤ 'f') || ('A' ≤ c && c ≤ 'F')

/-- Value of one ASCII decimal digit list (`int(s, 10)` on digit-only input). -/
def decValue (s : List Char) : Nat := s.foldl (fun acc c => acc * 10 + (c.toNat - 48)) 0

/-! ## `ipaddress` host validation

`urlsplit` validates a bracketed netloc host through
`_check_bracketed_host`, which accepts an `IPvFuture` literal or anything
`ipaddress.ip_address` parses as an IPv6 address (an IPv4 address inside
brackets is rejected).  `ValueError` is modelled as `false`. -/

/-- `ipaddress.IPv4Address._parse_octet`: nonempty, ASCII digits only, at most
3 characters, no leading zero (except `"0"` itself), value at most 255. -/
def ipv4OctetOK (s : List Char) : Bool :=
  s ≠ [] && s.all Char.isDigit && s.length ≤ 3 &&
    (s = ['0'] || s.headD ' ' ≠ '0') && decValue s ≤ 255

/-- `ipaddress.IPv4Address._ip_int_from_string`: exactly four valid octets. -/
def isValidIPv4 (s : List Char) : Bool :=
  let octets := splitChar '.' s
  octets.length = 4 && octets.all ipv4OctetOK

/-- `ipaddress.IPv6Address._parse_hextet`: hex digits only, 1–4 characters
(an empty hextet fails inside `int(s, 16)`). -/
def hextetOK (s : List Char) : Bool := s ≠ [] && s.all isHexChar && s.length ≤ 4

/-- `ipaddress.IPv6Address._ip_int_from_string` viewed as a validity test,
including the IPv4-mapped suffix and the single-`::` rules. -/
def isValidIPv6Core (s : List Char) : Bool :=
  if s = [] then false
  else
    let parts := splitChar ':' s
    if parts.length < 3 then false
    else
      -- an IPv4-style suffix is popped and replaced by two (valid) hextets
      let lastPart := parts.getLastD []
      let expand := lastPart.contains '.'
      if expand && ¬ isValidIPv4 lastPart then false
      else
        let parts := if expand then parts.dropLast ++ [['0'], ['0']] else parts
        if parts.length > 9 then false
        else
          let n := parts.length
          let middleEmpties :=
            (List.range n).filter (fun i => 0 < i && i < n - 1 && parts.getD i [' '] = [])
          match middleEmpties with
          | _ :: _ :: _ => false
          | [skipIdx] =>
              let partsHi := skipIdx
              let partsLo := n - skipIdx - 1
              if parts.headD [' '] = [] && partsHi - 1 ≠ 0 then false
              else
                let partsHi := if parts.headD [' '] = [] then partsHi - 1 else partsHi
                if parts.getLastD [' '] = [] && partsLo - 1 ≠ 0 then false
                else
                  let partsLo := if parts.getLastD [' '] = [] then partsLo - 1 else partsLo
                  if partsHi + partsLo + 1 > 8 then false
                  else
                    (parts.take partsHi).all hextetOK &&
                      (parts.drop (n - partsLo)).all hextetOK
          | [] =>
              if n ≠ 8 then false
              else if parts.headD [' '] = [] || parts.getLastD [' '] = [] then false
              else parts.all hextetOK

/-- `ipaddress.IPv6Address.__init__`: an optional nonempty `%scope_id` after
the address part. -/
def isValidIPv6 (s : List Char) : Bool :=
  match partitionChar '%' s with
  | (addr, hasPct, scope) => (!hasPct || scope ≠ []) && isValidIPv6Core addr

/-- `urllib.parse._check_bracketed_host`: `v`-prefixed literals must match
`\Av[a-fA-F0-9]+\..+\Z` (the tail may not contain a newline); anything else
must be a valid IPv6 address (`ip_address` raises on bad input, and an IPv4
result is rejected explicitly). -/
def bracketedHostOK (h : List Char) : Bool :=
  match h with
  | 'v' :: rest =>
      let hexRun := rest.takeWhile isHexChar
      let afterHex := rest.dropWhile isHexChar
      hexRun ≠ [] &&
        (match afterHex with
         | '.' :: tail => tail ≠ [] && tail.all (· ≠ '\n')
         | _ => false)
  | _ => isValidIPv6 h

/-! ## `urllib.parse` -/

/-- Schemes of `urllib.parse.uses_relative`. -/
def usesRelative : List (List Char) :=
  ["", "ftp", "http", "gopher", "nntp", "imap", "wais", "file", "https", "shttp",
   "mms", "prospero", "rtsp", "rtsps", "rtspu", "sftp", "svn", "svn+ssh",
   "ws", "wss"].map String.data

/-- Schemes of `urllib.parse.uses_netloc`. -/
def usesNetloc : List (List Char) :=
  ["", "ftp", "http", "gopher", "nntp", "telnet", "imap", "wais", "file", "mms",
   "https", "shttp", "snews", "prospero", "rtsp", "rtsps", "rtspu", "rsync",
   "svn", "svn+ssh", "sftp", "nfs", "git", "git+ssh", "ws", "wss"].map String.data

/-- Schemes of `urllib.parse.uses_params`. -/
def usesParams : List (List Char) :=
  ["", "ftp", "hdl", "prospero", "http", "imap", "https", "shttp", "rtsp",
   "rtsps", "rtspu", "sip", "sips", "mms", "sftp", "tel"].map String.data

/-- The five components produced by `urllib.parse.urlsplit`. -/
structure SplitResult where
  scheme : List Char
  netloc : List Char
  path : List Char
  query : List Char
  fragment : List Char
deriving DecidableEq, Repr

/-- The six components produced by `urllib.parse.urlparse`. -/
structure ParseResult where
  scheme : List Char
  netloc : List Char
  path : List Char
  params : List Char
  query : List Char
  fragment : List Char
deriving DecidableEq, Repr

/-- `urllib.parse._splitnetloc(url, 2)`: the netloc runs to the first of
`/`, `?` or `#` after the two slashes. -/
def splitnetloc (afterSlashes : List Char) : List Char × List Char :=
  (afterSlashes.takeWhile (fun c => ¬ (c = '/' ∨ c = '?' ∨ c = '#')),
   afterSlashes.dropWhile (fun c => ¬ (c = '/' ∨ c = '?' ∨ c = '#')))

/-- `urllib.parse.urlsplit(url, scheme, allow_fragments=True)`; `none` is
`ValueError`.  The NFKC check of `_checknetloc` is vacuous for ASCII netlocs
and is modelled as passing. -/
def urlsplitM (url0 scheme0 : List Char) : Option SplitResult :=
  let url1 := removeUnsafeBytes (lstripC0 url0)
  let schemeDefault := removeUnsafeBytes (stripC0 scheme0)
  -- scheme detection at the first ':'
  let (scheme, url2) :=
    match findChar ':' url1 with
    | some i =>
        if 0 < i && (url1.headD ' ').isAlpha && (url1.take i).all isSchemeChar then
          ((url1.take i).map Char.toLower, url1.drop (i + 1))
        else (schemeDefault, url1)
    | none => (schemeDefault, url1)
  match url2 with
  | '/' :: '/' :: rest =>
      let (netloc, url3) := splitnetloc rest
      if (netloc.contains '[' && ¬ netloc.contains ']') ||
         (netloc.contains ']' && ¬ netloc.contains '[') then none
      else if netloc.contains '[' && netloc.contains ']' then
        let bracketed := (partitionChar ']' (partitionChar '[' netloc).2.2).1
        if bracketedHostOK bracketed then
          let (url4, fragment) :=
            if url3.contains '#' then splitOnce '#' url3 else (url3, [])
          let (path, query) :=
            if url4.contains '?' then splitOnce '?' url4 else (url4, [])
          some ⟨scheme, netloc, path, query, fragment⟩
        else none
      else
        let (url4, fragment) :=
          if url3.contains '#' then splitOnce '#' url3 else (url3, [])
        let (path, query) :=
          if url4.contains '?' then splitOnce '?' url4 else (url4, [])
        some ⟨scheme, netloc, path, query, fragment⟩
  | _ =>
      let (url4, fragment) :=
        if url2.contains '#' then splitOnce '#' url2 else (url2, [])
      let (path, query) :=
        if url4.contains '?' then splitOnce '?' url4 else (url4, [])
      some ⟨scheme, [], path, query, fragment⟩

/-- `urllib.parse._splitparams`. -/
def splitparams (url : List Char) : List Char × List Char :=
  if url.contains '/' then
    match rfindChar '/' url with
    | some r =>
        match findCharFrom ';' url r with
        | some i => (url.take i, url.drop (i + 1))
        | none => (url, [])
    | none => (url, [])
  else
    match findChar ';' url with
    | some i => (url.take i, url.drop (i + 1))
    | none => (url, [])

/-- `urllib.parse.urlparse(url, scheme, allow_fragments=True)`. -/
def urlparseM (url0 scheme0 : List Char) : Option ParseResult :=
  (urlsplitM url0 scheme0).map fun r =>
    if usesParams.contains r.scheme && r.path.contains ';' then
      let (path, params) := splitparams r.path
      ⟨r.scheme, r.netloc, path, params, r.query, r.fragment⟩
    else ⟨r.scheme, r.netloc, r.path, [], r.query, r.fragment⟩

/-- `urllib.parse.urlunsplit`. -/
def urlunsplitM (scheme netloc url query fragment : List Char) : List Char :=
  let url :=
    if netloc ≠ [] ∨ (scheme ≠ [] ∧ usesNetloc.contains scheme ∧ url.take 2 ≠ ['/', '/'])
    then
      let url := if url ≠ [] ∧ url.headD ' ' ≠ '/' then '/' :: url else url
      '/' :: '/' :: (netloc ++ url)
    else url
  let url := if scheme ≠ [] then scheme ++ ':' :: url else url
  let url := if query ≠ [] then url ++ '?' :: query else url
  if fragment ≠ [] then url ++ '#' :: fragment else url

/-- `urllib.parse.urlunparse`. -/
def urlunparseM (scheme netloc url params query fragment : List Char) : List Char :=
  let url := if params ≠ [] then url ++ ';' :: params else url
  urlunsplitM scheme netloc url query fragment

/-- Keep the first and last elements, drop empty middle elements
(`segments[1:-1] = filter(None, segments[1:-1])`). -/
def filterMiddle : List (List Char) → List (List Char)
  | [] => []
  | [a] => [a]
  | a :: rest => a :: filterMiddleTail rest
where
  /-- Tail part: the last element is kept even when empty. -/
  filterMiddleTail : List (List Char) → List (List Char)
    | [] => []
    | [b] => [b]
    | b :: rest => if b = [] then filterMiddleTail rest else b :: filterMiddleTail rest

/-- The segment fold of `urljoin`: `..` pops (ignoring underflow), `.` is
skipped, anything else is appended. -/
def resolveSegments (segments : List (List Char)) : List (List Char) :=
  segments.foldl
    (fun acc seg =>
      if seg = ['.', '.'] then acc.dropLast
      else if seg = ['.'] then acc
      else acc ++ [seg]) []

/-- `urllib.parse.urljoin(base, url)`; `none` is `ValueError`. -/
def urljoinM (base url : List Char) : Option (List Char) :=
  if base = [] then some url
  else if url = [] then some base
  else do
    let b ← urlparseM base []
    let u ← urlparseM url b.scheme
    if u.scheme ≠ b.scheme ∨ ¬ usesRelative.contains u.scheme then return url
    else
      let netloc := u.netloc
      if usesNetloc.contains u.scheme ∧ netloc ≠ [] then
        return urlunparseM u.scheme netloc u.path u.params u.query u.fragment
      else
        let netloc := if usesNetloc.contains u.scheme then b.netloc else netloc
        if u.path = [] ∧ u.params = [] then
          let query := if u.query = [] then b.query else u.query
          return urlunparseM u.scheme netloc b.path b.params query u.fragment
        else
          let baseParts := splitChar '/' b.path
          let baseParts := if baseParts.getLastD [] ≠ [] then baseParts.dropLast else baseParts
          let segments :=
            if u.path.take 1 = ['/'] then splitChar '/' u.path
            else filterMiddle (baseParts ++ splitChar '/' u.path)
          let resolved := resolveSegments segments
          let resolved :=
            if segments.getLastD [] = ['.'] ∨ segments.getLastD [] = ['.', '.']
            then resolved ++ [[]] else resolved
          let joined := List.intercalate ['/'] resolved
          let path := if joined = [] then ['/'] else joined
          return urlunparseM u.scheme netloc path u.params u.query u.fragment

/-- `urllib.parse.urljoin` on `String`s, as called by `parse`. -/
def urljoin (base url : String) : Option String :=
  (urljoinM base.data url.data).map String.mk

/-! ## `HREF_RE.findall`

`HREF_RE = re.compile(r'href="(.*?)"')`.  At each position the engine tries
the literal `href="`, then the non-greedy `(.*?)` extends up to the first
following `"`; `.` does not match `\n`, so a newline before the closing quote
kills the attempt and scanning restarts one character further on.  After a
match, scanning resumes after the closing quote. -/

/-- Capture of `(.*?)"`: the characters before the first `"`, failing on a
newline or the end of input. -/
def scanClose : List Char → Option (List Char × List Char)
  | [] => none
  | c :: rest =>
      if c = '"' then some ([], rest)
      else if c = '\n' then none
      else
        match scanClose rest with
        | none => none
        | some (cap, r) => some (c :: cap, r)

/-- The scan of `re.findall`, structurally recursive on a fuel argument so
that it reduces in the kernel; each recursive call strictly shrinks the
input, so any fuel of at least the input length gives the scan's value. -/
def findHrefsF : Nat → List Char → List (List Char)
  | 0, _ => []
  | fuel + 1, s =>
      match s with
      | [] => []
      | 'h' :: 'r' :: 'e' :: 'f' :: '=' :: '"' :: rest =>
          match scanClose rest with
          | some (cap, r) => cap :: findHrefsF fuel r
          | none => findHrefsF fuel ('r' :: 'e' :: 'f' :: '=' :: '"' :: rest)
      | _ :: rest => findHrefsF fuel rest

/-- `re.findall(r'href="(.*?)"', s)`: the list of captured groups, scanned
left to right without overlap. -/
def findHrefs (s : List Char) : List (List Char) := findHrefsF s.length s

/-! ## The Page Processor: `parse`

`parse(url, session)` awaits `fetch_html`; an `aiohttp.ClientError` or
`aiohttp.http_exceptions.HttpProcessingError` is logged and turns into the
empty set, any other `Exception` likewise; on success the `href` values are
resolved with `urljoin`, a `URLError`/`ValueError` dropping the single link,
and collected into a Python `set` (`found.add`). -/

/-- Outcome of `await fetch_html(...)` as observed by `parse`'s `try` block:
the body on success, or the exception the fetch raised. -/
inductive FetchOutcome where
  /-- `fetch_html` returned the decoded body. -/
  | success (html : String)
  /-- the fetch raised `aiohttp.ClientError` or `HttpProcessingError`. -/
  | aiohttpError (status : Option Nat) (message : Option String)
  /-- the fetch raised any other `Exception`. -/
  | otherException (info : String)
deriving DecidableEq

/-- `found.add(abslink)`: a Python `set` keeps one copy of each element. -/
def addLink (found : List String) (a : String) : List String :=
  if a ∈ found then found else found ++ [a]

/-- The `for link in HREF_RE.findall(html)` loop of `parse`: resolution
failure (`except (urllib.error.URLError, ValueError)`) logs and drops the one
link, everything else is added to `found`. -/
def extractLoop (url : String) : List (List Char) → List String → List String
  | [], found => found
  | link :: rest, found =>
      match urljoin url (String.mk link) with
      | none => extractLoop url rest found
      | some a => extractLoop url rest (addLink found a)

/-- The successful branch of `parse`: scan `html` for hrefs and resolve each
against `url`. -/
def extractLinks (url html : String) : List String :=
  extractLoop url (findHrefs html.data) []

/-- `parse(url, session)`: an empty set on either `except` branch, the
extracted links otherwise.  The function is total: no exception leaves it. -/
def parse (url : String) (fetched : FetchOutcome) : List String :=
  match fetched with
  | .success html => extractLinks url html
  | .aiohttpError _ _ => []
  | .otherException _ => []

/-! ## The Fetcher: `fetch_html`

`fetch_html` performs the GET and calls `resp.raise_for_status()`, which in
aiohttp raises `ClientResponseError` exactly when `resp.status >= 400`;
otherwise the decoded body is returned.  The model takes the status and body
the server sent. -/

/-- `fetch_html` viewed at the status boundary: `Except.error s` is the
`ClientResponseError` raised by `raise_for_status` for status `s`. -/
def fetch_html (status : Nat) (body : String) : Except Nat String :=
  if 400 ≤ status then Except.error status else Except.ok body

/-! ## The Aggregating Writer: `write_one`

`write_one` returns `None` without touching the sink when `parse` produced no
links; otherwise it opens the sink in append mode and writes one
`f"{url}\t{p}\n"` line per link.  There is no `try`/`except` around the open
or the writes: an `OSError` there leaves `write_one` uncaught. -/

/-- One output record, `f"{url}\t{p}\n"`. -/
def outLine (url p : String) : String := url ++ "\t" ++ p ++ "\n"

/-- What a completed `write_one` call did to the world. -/
structure WriteEffect where
  /-- whether `aiofiles.open(file, "a")` was entered -/
  opened : Bool
  /-- the lines appended to the sink -/
  written : List String
  /-- whether the `"Wrote results for source URL"` log line was emitted -/
  loggedWrote : Bool
deriving DecidableEq

/-- Result of `write_one`: a normal return, or an exception escaping it. -/
inductive WriteResult where
  /-- `write_one` returned normally with the given effect on the sink. -/
  | ok (eff : WriteEffect)
  /-- an exception left `write_one` uncaught. -/
  | raised (exc : String)
deriving DecidableEq

/-- `write_one(file, url, session)` with the fetch outcome for `url` and a
flag saying whether opening/appending the sink fails with `OSError`. -/
def write_one (sinkFails : Bool) (url : String) (fetched : FetchOutcome) : WriteResult :=
  let res := parse url fetched
  if res = [] then .ok ⟨false, [], false⟩
  else if sinkFails then .raised "OSError"
  else .ok ⟨true, res.map (outLine url), true⟩

/-! ## The Crawl Coordinator: `bulk_crawl_and_write`

`bulk_crawl_and_write` builds one `write_one` coroutine per seed URL and
awaits `asyncio.gather(*tasks)` (default `return_exceptions=False`): if every
task returns, so does the coordinator; if some task raises, the first
exception propagates out of the `await` and out of the coordinator. -/

/-- `bulk_crawl_and_write(file, urls)` over the network behavior `net`:
`Except.error e` is the exception `asyncio.gather` re-raises. -/
def bulk_crawl_and_write (sinkFails : Bool) (urls : List String)
    (net : String → FetchOutcome) : Except String (List WriteEffect) :=
  match (urls.map (fun u => write_one sinkFails u (net u))).findSome?
      (fun r => match r with | .raised e => some e | .ok _ => none) with
  | some e => .error e
  | none =>
      .ok ((urls.map (fun u => write_one sinkFails u (net u))).filterMap
        (fun r => match r with | .ok eff => some eff | .raised _ => none))

/-! ## Interleaved execution of the concurrent writers

`write_one` holds no lock: between its `await f.write(...)` calls the event
loop may run any other writer.  A task is the list of its atomic sink events;
a schedule says which task performs its next event at each step.  A `wline`
event appends one whole line (one buffered `write` call); a `wfail` event is
the `OSError` that ends its task with an exception and makes the pending
`await asyncio.gather` raise. -/

/-- One atomic sink event of a writer task. -/
inductive WStep where
  /-- one `await f.write(line)` of a complete line -/
  | wline (line : String)
  /-- the open/append raising `OSError` -/
  | wfail
deriving DecidableEq

/-- Global state: per-task remaining events, sink contents, and whether some
task has raised (making the `gather` call re-raise). -/
structure ExecState where
  rem : List (List WStep)
  file : List String
  raised : Bool
deriving DecidableEq

/-- Task `i` performs its next event.  A task with no events left (or an
index with no task) changes nothing. -/
def stepWrite (st : ExecState) (i : Nat) : ExecState :=
  match st.rem.getD i [] with
  | WStep.wline l :: rest =>
      { rem := st.rem.set i rest, file := st.file ++ [l], raised := st.raised }
  | WStep.wfail :: _ =>
      { rem := st.rem.set i [], file := st.file, raised := true }
  | [] => st

/-- Run the tasks under a schedule, from the empty sink. -/
def runSched (tasks : List (List WStep)) (sched : List Nat) : ExecState :=
  sched.foldl stepWrite { rem := tasks, file := [], raised := false }

/-- Every scheduled task has completed. -/
def allDone (st : ExecState) : Bool := st.rem.all (fun t => t.isEmpty)

/-- The `await asyncio.gather(*tasks)` in the coordinator has returned:
normally once all tasks are done, or by re-raising once a task raised. -/
def gatherReturned (st : ExecState) : Bool := st.raised || allDone st

/-- The sink events of one `write_one(file, url, session)` unit. -/
def writeTrace (sinkFails : Bool) (url : String) (fetched : FetchOutcome) : List WStep :=
  let res := parse url fetched
  if res = [] then []
  else if sinkFails then [WStep.wfail]
  else res.map (fun p => WStep.wline (outLine url p))

/-- The concurrent units scheduled by `bulk_crawl_and_write`: one per URL of
the seed set, in iteration order. -/
def bulkTasks (sinkFails : Bool) (urls : List String)
    (net : String → FetchOutcome) : List (List WStep) :=
  urls.map (fun u => writeTrace sinkFails u (net u))

/-- `block` occurs at the head of `l`. -/
def blockAt : List String → List String → Bool
  | [], _ => true
  | _ :: _, [] => false
  | b :: bs, f :: fs => decide (b = f) && blockAt bs fs

/-- `block` occurs contiguously somewhere in `l`. -/
def hasBlock (bs : List String) : List String → Bool
  | [] => blockAt bs []
  | f :: fs => blockAt bs (f :: fs) || hasBlock bs fs

/-- The write-serialization property the specification asserts: in the final
sink, each URL's batch of lines forms one contiguous block. -/
def batchesContiguous (urls : List String) (net : String → FetchOutcome)
    (file : List String) : Prop :=
  ∀ u ∈ urls, hasBlock ((parse u (net u)).map (outLine u)) file = true

/-- Total number of pending sink events. -/
def remCount (st : ExecState) : Nat := (st.rem.map List.length).sum

/-- No task can raise (its sink never fails). -/
def noFailTasks (tasks : List (List WStep)) : Prop := ∀ t ∈ tasks, WStep.wfail ∉ t

/-- Two seed URLs used by the concrete concurrency scenarios. -/
def urlsAB : List String := ["http://a.test/", "http://b.test/"]

/-- A network on which every page carries the two hrefs `/x` and `/y`. -/
def netXY : String → FetchOutcome :=
  fun _ => FetchOutcome.success "href=\"/x\" href=\"/y\""

/-! ## Lemmas: the non-greedy capture shrinks the input -/

theorem scanClose_length :
    ∀ s cap r, scanClose s = some (cap, r) → r.length < s.length := by
  intro s
  induction s with
  | nil => intro cap r h; simp [scanClose] at h
  | cons c rest ih =>
      intro cap r h
      simp only [scanClose] at h
      split at h
      · cases h; simp
      · split at h
        · cases h
        · rcases hm : scanClose rest with _ | p <;> rw [hm] at h
          · cases h
          · cases h
            exact Nat.lt_succ_of_lt (ih p.1 p.2 hm)

/-! ## Lemmas: the extraction loop -/

theorem mem_addLink (found : List String) (b a : String) :
    a ∈ addLink found b ↔ a ∈ found ∨ a = b := by
  by_cases hb : b ∈ found
  · rw [addLink, if_pos hb]
    exact ⟨Or.inl, fun h => h.elim id fun e => e ▸ hb⟩
  · rw [addLink, if_neg hb]
    simp

theorem addLink_nodup (found : List String) (a : String) (h : found.Nodup) :
    (addLink found a).Nodup := by
  by_cases ha : a ∈ found
  · rw [addLink, if_pos ha]; exact h
  · rw [addLink, if_neg ha]
    simp [List.nodup_append, h, ha]

theorem addLink_idem (found : List String) (a : String) :
    addLink (addLink found a) a = addLink found a := by
  have h : a ∈ addLink found a := (mem_addLink found a a).mpr (Or.inr rfl)
  rw [addLink]
  exact if_pos h

theorem extractLoop_append (url : String) (l1 l2 : List (List Char)) (found : List String) :
    extractLoop url (l1 ++ l2) found = extractLoop url l2 (extractLoop url l1 found) := by
  induction l1 generalizing found with
  | nil => rfl
  | cons x xs ih =>
      simp only [List.cons_append, extractLoop]
      cases urljoin url (String.mk x) <;> simp [ih]

theorem extractLoop_mem (url : String) (links : List (List Char)) (found : List String)
    (a : String) :
    a ∈ extractLoop url links found ↔
      a ∈ found ∨ ∃ l ∈ links, urljoin url (String.mk l) = some a := by
  induction links generalizing found with
  | nil => simp [extractLoop]
  | cons x xs ih =>
      simp only [extractLoop]
      rcases hx : urljoin url (String.mk x) with _ | b
      · rw [ih]
        simp only [List.exists_mem_cons_iff, hx]
        tauto
      · rw [ih, mem_addLink]
        simp only [List.exists_mem_cons_iff, hx, Option.some_inj]
        tauto

theorem extractLoop_nodup (url : String) (links : List (List Char)) (found : List String)
    (h : found.Nodup) : (extractLoop url links found).Nodup := by
  induction links generalizing found with
  | nil => exact h
  | cons x xs ih =>
      simp only [extractLoop]
      rcases urljoin url (String.mk x) with _ | b
      · exact ih found h
      · exact ih _ (addLink_nodup _ _ h)

theorem extractLoop_dup (url : String) (pre : List (List Char)) (x : List Char)
    (suf : List (List Char)) (found : List String) :
    extractLoop url (pre ++ x :: x :: suf) found = extractLoop url (pre ++ x :: suf) found := by
  rw [show pre ++ x :: x :: suf = pre ++ [x, x] ++ suf by simp,
      show pre ++ x :: suf = pre ++ [x] ++ suf by simp,
      extractLoop_append, extractLoop_append, extractLoop_append, extractLoop_append]
  rcases hx : urljoin url (String.mk x) with _ | b
  · simp only [extractLoop, hx]
  · simp only [extractLoop, hx, addLink_idem]

theorem urljoin_empty_ref : ∀ u : String, urljoin u "" = some u
  | ⟨d⟩ => by
    show (urljoinM d []).map String.mk = some ⟨d⟩
    unfold urljoinM
    by_cases h : d = [] <;> simp [h]

/-! ## Claims about the Page Processor and the Link Extractor -/

/-- Claim C2: `parse` never lets an exception past its boundary — both the
`except (aiohttp.ClientError, HttpProcessingError)` arm and the catch-all
`except Exception` arm log and return the empty link set, whatever the fetch
raised.  (`parse` is a total function of the fetch outcome, so nothing
propagates out of it.) -/
theorem claim2_parse_absorbs_all (url : String) (status : Option Nat)
    (message : Option String) (info : String) :
    parse url (FetchOutcome.aiohttpError status message) = [] ∧
    parse url (FetchOutcome.otherException info) = [] :=
  ⟨rfl, rfl⟩

/-- Claim C5: on a page with hrefs `/a`, `http://x.test/b` and `../c` and
origin `http://x.test/dir/page`, extraction yields exactly
`{http://x.test/a, http://x.test/b, http://x.test/c}`. -/
theorem claim5_extraction_example :
    extractLinks "http://x.test/dir/page"
        "<a href=\"/a\"> <a href=\"http://x.test/b\"> <a href=\"../c\">" =
      ["http://x.test/a", "http://x.test/b", "http://x.test/c"] ∧
    (extractLinks "http://x.test/dir/page"
        "<a href=\"/a\"> <a href=\"http://x.test/b\"> <a href=\"../c\">").toFinset =
      {"http://x.test/a", "http://x.test/b", "http://x.test/c"} := by
  constructor
  · decide
  · decide

/-- Claim C6: an href whose resolution raises (`http://[` raises
`ValueError: Invalid IPv6 URL` inside `urljoin`) is dropped and logged while
the remaining hrefs of the page are still extracted; in general a string is
in the result exactly when it is the successful resolution of some scanned
href, and the extractor is a total function (worst case the empty list). -/
theorem claim6_bad_href_dropped :
    urljoin "http://x.test/" "http://[" = none ∧
    extractLinks "http://x.test/" "<a href=\"http://[\"> <a href=\"/ok\">" =
      ["http://x.test/ok"] ∧
    ∀ url html a, a ∈ extractLinks url html ↔
      ∃ link ∈ findHrefs html.data, urljoin url (String.mk link) = some a := by
  refine ⟨by decide, by decide, fun url html a => ?_⟩
  rw [extractLinks, extractLoop_mem]
  simp

/-- Claim C7: extraction results carry no duplicates — a page with two
identical hrefs yields one entry, and duplicating any scanned href occurrence
leaves the extraction loop's result unchanged. -/
theorem claim7_dedup :
    (extractLinks "http://x.test/" "<a href=\"/a\"> <a href=\"/a\">").length = 1 ∧
    (∀ url html, (extractLinks url html).Nodup) ∧
    ∀ url pre x suf found,
      extractLoop url (pre ++ x :: x :: suf) found = extractLoop url (pre ++ x :: suf) found := by
  refine ⟨by decide, fun url html => ?_, extractLoop_dup⟩
  exact extractLoop_nodup url _ [] List.nodup_nil

/-- Claim C9: when `parse` produced no links — page without links or failed
fetch alike — `write_one` returns before touching the sink: it is not
opened, nothing is appended, and no success log line is emitted. -/
theorem claim9_empty_noop (sinkFails : Bool) (url : String) (fetched : FetchOutcome)
    (h : parse url fetched = []) :
    write_one sinkFails url fetched = WriteResult.ok ⟨false, [], false⟩ := by
  unfold write_one
  simp [h]

/-- Witness for C9 at two concrete inputs: a URL whose fetch failed with a
404, and a URL whose page has no hrefs. -/
theorem claim9_empty_noop_witness :
    write_one true "http://a.test/" (FetchOutcome.aiohttpError (some 404) (some "Not Found")) =
      WriteResult.ok ⟨false, [], false⟩ ∧
    write_one false "http://b.test/" (FetchOutcome.success "<p>no links</p>") =
      WriteResult.ok ⟨false, [], false⟩ :=
  ⟨claim9_empty_noop true "http://a.test/" _ rfl,
   claim9_empty_noop false "http://b.test/" _ (by decide)⟩

/-- Counterexample to claim C10 as stated: with origin
`http://x.test/p#f`, the page `<a href="">` contributes the origin URL
verbatim — the fragment is not stripped (CPython's `urljoin` returns the
base unchanged for an empty reference), so the fragment-stripped URL
`http://x.test/p` is not in the result. -/
theorem claim10_counterexample :
    extractLinks "http://x.test/p#f" "<a href=\"\">" = ["http://x.test/p#f"] ∧
    "http://x.test/p" ∉ extractLinks "http://x.test/p#f" "<a href=\"\">" := by
  constructor
  · decide
  · decide

/-- Claim C10 amended: a page containing `href=""` contributes the origin URL
itself, unchanged (fragment included), so an output record can have identical
source and discovered URL. -/
theorem claim10_amended (u : String) : extractLinks u "<a href=\"\">" = [u] := by
  have h : urljoin u "" = some u := urljoin_empty_ref u
  have hf : findHrefs ("<a href=\"\">".data) = [[]] := by decide
  rw [extractLinks, hf]
  simp only [extractLoop, show String.mk [] = "" from rfl, h, addLink]
  simp

/-! ## Claims about the Fetcher -/

/-- Counterexample to claim C4 as stated: `raise_for_status` raises only for
status `>= 400`, so a 304 response (a 3xx that aiohttp never follows) is
returned as a success with its body — not converted to a `FetchError`. -/
theorem claim4_counterexample :
    ¬ ∀ (status : Nat) (body : String),
        (fetch_html status body = Except.ok body ↔ 200 ≤ status ∧ status < 300) := by
  intro h
  have h304 := (h 304 "").mp
  have : 200 ≤ 304 ∧ 304 < 300 := h304 rfl
  omega

/-- Claim C4 amended: `fetch_html` succeeds with the body exactly when the
status is below 400, and every status `>= 400` raises a `ClientResponseError`
carrying that status. -/
theorem claim4_amended (status : Nat) (body : String) :
    (status < 400 → fetch_html status body = Except.ok body) ∧
    (400 ≤ status → fetch_html status body = Except.error status) := by
  constructor <;> intro h
  · rw [fetch_html, if_neg (by omega)]
  · rw [fetch_html, if_pos h]

/-- Witness for C4 amended at a non-followed 3xx and at a 404. -/
theorem claim4_amended_witness :
    fetch_html 304 "<html>" = Except.ok "<html>" ∧
    fetch_html 404 "<err>" = Except.error 404 :=
  ⟨(claim4_amended 304 "<html>").1 (by omega), (claim4_amended 404 "<err>").2 (by omega)⟩

/-! ## Claims about the Aggregating Writer and the Coordinator -/

/-- Counterexample to claim C1 as stated: with a sink whose open/append
raises `OSError` and a URL with a non-empty link set, the exception escapes
`write_one` (there is no `try` around the write) and `asyncio.gather`
re-raises it out of `bulk_crawl_and_write`. -/
theorem claim1_counterexample :
    write_one true "http://a.test/" (FetchOutcome.success "href=\"/x\"") =
      WriteResult.raised "OSError" ∧
    bulk_crawl_and_write true ["http://a.test/"]
        (fun _ => FetchOutcome.success "href=\"/x\"") = Except.error "OSError" :=
  ⟨rfl, rfl⟩

/-- Claim C1 amended: when the sink fails for a URL with a non-empty link
set, the `OSError` is neither caught nor logged — it propagates out of
`write_one`, and out of `bulk_crawl_and_write` via `gather`. -/
theorem claim1_amended (url : String) (fetched : FetchOutcome) (urls : List String)
    (net : String → FetchOutcome)
    (hne : parse url fetched ≠ []) (hu : url ∈ urls) (hnet : net url = fetched) :
    write_one true url fetched = WriteResult.raised "OSError" ∧
    ∃ e, bulk_crawl_and_write true urls net = Except.error e := by
  have hw : write_one true url fetched = WriteResult.raised "OSError" := by
    unfold write_one
    simp [hne]
  refine ⟨hw, ?_⟩
  unfold bulk_crawl_and_write
  rcases hfs : (urls.map fun u => write_one true u (net u)).findSome?
      (fun r => match r with | .raised e => some e | .ok _ => none) with _ | e
  · rw [List.findSome?_eq_none_iff] at hfs
    have hm : write_one true url (net url) ∈ urls.map fun u => write_one true u (net u) :=
      List.mem_map_of_mem _ hu
    rw [hnet, hw] at hm
    have := hfs _ hm
    simp at this
  · rw [hfs]
    exact ⟨e, rfl⟩

/-- Witness for C1 amended at a concrete failing run. -/
theorem claim1_amended_witness :
    write_one true "http://a.test/" (FetchOutcome.success "href=\"/x\"") =
      WriteResult.raised "OSError" ∧
    ∃ e, bulk_crawl_and_write true ["http://a.test/"]
        (fun _ => FetchOutcome.success "href=\"/x\"") = Except.error e :=
  claim1_amended "http://a.test/" (FetchOutcome.success "href=\"/x\"") _ _
    (by decide) (by simp) rfl

/-! ## Lemmas: the interleaving semantics -/

theorem getD_mem_of_ne {α : Type} (l : List α) (i : Nat) (d : α) (h : l.getD i d ≠ d) :
    l.getD i d ∈ l := by
  induction l generalizing i with
  | nil => simp [List.getD] at h
  | cons a l ih =>
      cases i with
      | zero => simp
      | succ n =>
          simp only [List.getD_cons_succ] at h ⊢
          exact List.mem_cons_of_mem a (ih n h)

theorem sum_len_set (l : List (List WStep)) (i : Nat) (s : WStep) (rest : List WStep)
    (h : l.getD i [] = s :: rest) :
    ((l.set i rest).map List.length).sum + 1 = (l.map List.length).sum := by
  induction l generalizing i with
  | nil => simp [List.getD] at h
  | cons a l ih =>
      cases i with
      | zero =>
          simp only [List.getD_cons_zero] at h
          subst h
          simp only [List.set, List.map_cons, List.sum_cons, List.length_cons]
          omega
      | succ n =>
          simp only [List.getD_cons_succ] at h
          have := ih n h
          simp only [List.set, List.map_cons, List.sum_cons]
          omega

theorem stepWrite_noFail (st : ExecState) (i : Nat)
    (hno : ∀ t ∈ st.rem, WStep.wfail ∉ t) (hr : st.raised = false) :
    (∀ t ∈ (stepWrite st i).rem, WStep.wfail ∉ t) ∧ (stepWrite st i).raised = false := by
  rcases hg : st.rem.getD i [] with _ | ⟨s, rest⟩
  · simp only [stepWrite, hg]
    exact ⟨hno, hr⟩
  · have hmem : s :: rest ∈ st.rem := by
      have := getD_mem_of_ne st.rem i [] (by rw [hg]; exact List.cons_ne_nil s rest)
      rwa [hg] at this
    cases s with
    | wline l =>
        simp only [stepWrite, hg]
        refine ⟨fun t ht => ?_, hr⟩
        rcases List.mem_or_eq_of_mem_set ht with h | rfl
        · exact hno t h
        · have := hno _ hmem
          simp only [List.mem_cons, not_or] at this
          exact fun hc => this.2 hc
    | wfail =>
        exact absurd (hno _ hmem) (by simp)

theorem runSched_noFail (sched : List Nat) :
    ∀ st : ExecState, (∀ t ∈ st.rem, WStep.wfail ∉ t) → st.raised = false →
      (∀ t ∈ (sched.foldl stepWrite st).rem, WStep.wfail ∉ t) ∧
        (sched.foldl stepWrite st).raised = false := by
  induction sched with
  | nil => exact fun st h1 h2 => ⟨h1, h2⟩
  | cons i sched ih =>
      intro st h1 h2
      have hs := stepWrite_noFail st i h1 h2
      exact ih (stepWrite st i) hs.1 hs.2

theorem stepWrite_count (st : ExecState) (i : Nat)
    (hno : ∀ t ∈ st.rem, WStep.wfail ∉ t) :
    (stepWrite st i).file.length + remCount (stepWrite st i) =
      st.file.length + remCount st := by
  rcases hg : st.rem.getD i [] with _ | ⟨s, rest⟩
  · simp only [stepWrite, hg]
  · have hmem : s :: rest ∈ st.rem := by
      have := getD_mem_of_ne st.rem i [] (by rw [hg]; exact List.cons_ne_nil s rest)
      rwa [hg] at this
    cases s with
    | wline l =>
        simp only [stepWrite, hg, remCount]
        have := sum_len_set st.rem i _ rest hg
        simp only [List.length_append, List.length_cons, List.length_nil]
        omega
    | wfail =>
        exact absurd (hno _ hmem) (by simp)

theorem stepWrite_lines (Q : String → Prop) (st : ExecState) (i : Nat)
    (hf : ∀ l ∈ st.file, Q l) (hr : ∀ t ∈ st.rem, ∀ l, WStep.wline l ∈ t → Q l) :
    (∀ l ∈ (stepWrite st i).file, Q l) ∧
      (∀ t ∈ (stepWrite st i).rem, ∀ l, WStep.wline l ∈ t → Q l) := by
  rcases hg : st.rem.getD i [] with _ | ⟨s, rest⟩
  · simp only [stepWrite, hg]
    exact ⟨hf, hr⟩
  · have hmem : s :: rest ∈ st.rem := by
      have := getD_mem_of_ne st.rem i [] (by rw [hg]; exact List.cons_ne_nil s rest)
      rwa [hg] at this
    cases s with
    | wline l =>
        simp only [stepWrite, hg]
        constructor
        · intro l2 hl2
          rcases List.mem_append.mp hl2 with h | h
          · exact hf l2 h
          · rw [List.mem_singleton] at h
            subst h
            exact hr _ hmem l2 (List.mem_cons_self _ _)
        · intro t ht l2 hl2
          rcases List.mem_or_eq_of_mem_set ht with h | rfl
          · exact hr t h l2 hl2
          · exact hr _ hmem l2 (List.mem_cons_of_mem _ hl2)
    | wfail =>
        simp only [stepWrite, hg]
        constructor
        · exact hf
        · intro t ht l2 hl2
          rcases List.mem_or_eq_of_mem_set ht with h | rfl
          · exact hr t h l2 hl2
          · cases hl2

theorem runSched_lines (Q : String → Prop) (sched : List Nat) :
    ∀ st : ExecState, (∀ l ∈ st.file, Q l) →
      (∀ t ∈ st.rem, ∀ l, WStep.wline l ∈ t → Q l) →
      ∀ l ∈ (sched.foldl stepWrite st).file, Q l := by
  induction sched with
  | nil => exact fun st h1 _ => h1
  | cons i sched ih =>
      intro st h1 h2
      have hs := stepWrite_lines Q st i h1 h2
      exact ih (stepWrite st i) hs.1 hs.2

theorem runSched_count (sched : List Nat) :
    ∀ st : ExecState, (∀ t ∈ st.rem, WStep.wfail ∉ t) → st.raised = false →
      (sched.foldl stepWrite st).file.length + remCount (sched.foldl stepWrite st) =
        st.file.length + remCount st := by
  induction sched with
  | nil => exact fun st _ _ => rfl
  | cons i sched ih =>
      intro st h1 h2
      have hs := stepWrite_noFail st i h1 h2
      have hc := stepWrite_count st i h1
      have := ih (stepWrite st i) hs.1 hs.2
      rw [List.foldl_cons]
      omega

theorem remCount_of_allDone (st : ExecState) (h : allDone st = true) : remCount st = 0 := by
  rw [allDone, List.all_eq_true] at h
  rw [remCount]
  apply List.sum_eq_zero
  intro n hn
  rw [List.mem_map] at hn
  obtain ⟨t, ht, rfl⟩ := hn
  have := h t ht
  rw [List.isEmpty_iff] at this
  simp [this]

theorem writeTrace_false (u : String) (f : FetchOutcome) :
    writeTrace false u f = (parse u f).map (fun p => WStep.wline (outLine u p)) := by
  rw [writeTrace]
  rcases h : parse u f with _ | ⟨p, ps⟩ <;> simp [h]

theorem bulkTasks_false_noFail (urls : List String) (net : String → FetchOutcome) :
    ∀ t ∈ bulkTasks false urls net, WStep.wfail ∉ t := by
  intro t ht
  rw [bulkTasks, List.mem_map] at ht
  obtain ⟨u, _, rfl⟩ := ht
  rw [writeTrace_false, List.mem_map]
  rintro ⟨p, _, h⟩
  cases h

theorem bulkTasks_false_sum (urls : List String) (net : String → FetchOutcome) (M : Nat)
    (hM : ∀ u ∈ urls, (parse u (net u)).length = M) :
    ((bulkTasks false urls net).map List.length).sum = urls.length * M := by
  induction urls with
  | nil => simp [bulkTasks]
  | cons u urls ih =>
      have hstep : bulkTasks false (u :: urls) net =
          writeTrace false u (net u) :: bulkTasks false urls net := rfl
      rw [hstep, List.map_cons, List.sum_cons,
          ih (fun v hv => hM v (List.mem_cons_of_mem u hv)),
          writeTrace_false, List.length_map, hM u (List.mem_cons_self u urls),
          List.length_cons]
      ring

/-! ## Claims about concurrency and the fan-out barrier -/

/-- Counterexample to claim C3 as stated: `write_one` takes no lock and each
line is a separate awaited write, so the scheduler can interleave two
writers' batches; the schedule `[0, 1, 0, 1]` of two two-line writers
completes with neither batch contiguous in the sink. -/
theorem claim3_counterexample :
    ¬ ∀ sched : List Nat,
        allDone (runSched (bulkTasks false urlsAB netXY) sched) = true →
        batchesContiguous urlsAB netXY
          (runSched (bulkTasks false urlsAB netXY) sched).file := by
  intro h
  have hc := h [0, 1, 0, 1] (by decide)
  have ha := hc "http://a.test/" (by rw [urlsAB]; exact List.mem_cons_self _ _)
  revert ha
  decide

/-- Claim C3 amended: under any complete schedule of `N` concurrent writers
with `M` lines each, the sink holds exactly `N × M` lines and every line is a
whole `source<TAB>target<NEWLINE>` record of one of the writers — but the
lines of one URL's batch need not be contiguous. -/
theorem claim3_amended (urls : List String) (net : String → FetchOutcome) (M : Nat)
    (sched : List Nat)
    (hM : ∀ u ∈ urls, (parse u (net u)).length = M)
    (hdone : allDone (runSched (bulkTasks false urls net) sched) = true) :
    (runSched (bulkTasks false urls net) sched).file.length = urls.length * M ∧
    ∀ l ∈ (runSched (bulkTasks false urls net) sched).file,
      ∃ u ∈ urls, ∃ p ∈ parse u (net u), l = outLine u p := by
  constructor
  · have hc := runSched_count sched
      { rem := bulkTasks false urls net, file := [], raised := false }
      (bulkTasks_false_noFail urls net) rfl
    rw [runSched]
    have hz := remCount_of_allDone _ hdone
    rw [runSched] at hz
    have : remCount { rem := bulkTasks false urls net, file := [], raised := false } =
        ((bulkTasks false urls net).map List.length).sum := rfl
    rw [bulkTasks_false_sum urls net M hM] at this
    simp only [List.length_nil] at hc
    omega
  · intro l hl
    refine runSched_lines (fun l => ∃ u ∈ urls, ∃ p ∈ parse u (net u), l = outLine u p) sched
      { rem := bulkTasks false urls net, file := [], raised := false }
      (fun l hl => absurd hl (List.not_mem_nil l)) ?_ l hl
    intro t ht l2 hl2
    rw [bulkTasks, List.mem_map] at ht
    obtain ⟨u, hu, rfl⟩ := ht
    rw [writeTrace_false, List.mem_map] at hl2
    obtain ⟨p, hp, he⟩ := hl2
    cases he
    exact ⟨u, hu, p, hp, rfl⟩

/-- Witness for C3 amended: two writers of two lines each under an
interleaving schedule still produce exactly four well-formed lines. -/
theorem claim3_amended_witness :
    (runSched (bulkTasks false urlsAB netXY) [0, 1, 0, 1]).file.length = urlsAB.length * 2 ∧
    ∀ l ∈ (runSched (bulkTasks false urlsAB netXY) [0, 1, 0, 1]).file,
      ∃ u ∈ urlsAB, ∃ p ∈ parse u (netXY u), l = outLine u p :=
  claim3_amended urlsAB netXY 2 [0, 1, 0, 1] (by decide) (by decide)

/-- Counterexample to claim C8 as stated: a unit whose sink write raises
makes the pending `await asyncio.gather` re-raise, so the coordinator's wait
ends while a sibling unit has not completed — the fan-in barrier only holds
when no unit raises. -/
theorem claim8_counterexample :
    ¬ ∀ sched : List Nat,
        gatherReturned (runSched (bulkTasks true urlsAB netXY) sched) = true →
        allDone (runSched (bulkTasks true urlsAB netXY) sched) = true := by
  intro h
  have := h [0] (by decide)
  revert this
  decide

/-- Claim C8 amended: the coordinator schedules exactly one unit per seed
URL, and — provided no unit raises, i.e. the sink never fails — the
`gather` barrier returns only once every scheduled unit has completed. -/
theorem claim8_amended (urls : List String) (net : String → FetchOutcome) (sched : List Nat)
    (hret : gatherReturned (runSched (bulkTasks false urls net) sched) = true) :
    (bulkTasks false urls net).length = urls.length ∧
    allDone (runSched (bulkTasks false urls net) sched) = true := by
  refine ⟨by rw [bulkTasks, List.length_map], ?_⟩
  have hnf := runSched_noFail sched
    { rem := bulkTasks false urls net, file := [], raised := false }
    (bulkTasks_false_noFail urls net) rfl
  rw [gatherReturned, Bool.or_eq_true] at hret
  rcases hret with h | h
  · rw [runSched] at h
    rw [hnf.2] at h
    cases h
  · exact h

/-- Witness for C8 amended: two units, fully run in an interleaved order. -/
theorem claim8_amended_witness :
    (bulkTasks false urlsAB netXY).length = urlsAB.length ∧
    allDone (runSched (bulkTasks false urlsAB netXY) [1, 0, 1, 0]) = true :=
  claim8_amended urlsAB netXY [1, 0, 1, 0] (by decide)

end Areq
